import Mathlib

/-!
Verification development for the `pls` command-line assistant.

Shallow embedding of the pure cores of the Rust sources:
  * `src/safety.rs`    — risk classification (`assess_risk`)
  * `src/retrieval.rs` — cosine similarity and top-k tool retrieval
  * `src/planner.rs`   — response-to-plan parsing (`parse_plan`)
  * `src/executor.rs`  — output truncation of `execute_commands`
  * `src/commands.rs`  — the interactive confirm/edit/explain loop of `cmd_query`
  * `src/db.rs`        — history append (`save_history`) and `get_last_command`
  * `src/config.rs`    — the default safety configuration

Modelling conventions: Rust `String` is Lean `String` (operating on `String.data`
where the Rust code works with characters and substrings); `f32` arithmetic is
modelled exactly (over `ℚ` with the square root left as an explicit function
parameter where its value is irrelevant, and over `ℝ` with `Real.sqrt` for the
analytic facts); effectful collaborators (the LLM client, the SQLite
connection, subprocess execution, the external editor, terminal reads) are
passed in as explicit values or functions, so each embedded function is the
pure core of its Rust counterpart.
-/

/-! ### Characters and strings: helpers mirroring Rust `str` operations -/

/-- One position of `needle` being a prefix of `hay` (Rust `str::starts_with`
on the character level). -/
def charsPrefixOf : List Char → List Char → Bool
  | [], _ => true
  | _ :: _, [] => false
  | c :: cs, d :: ds => c = d && charsPrefixOf cs ds

/-- Rust `str::contains(pattern)`: `needle` occurs as a contiguous substring
of `hay`. -/
def charsContains (hay needle : List Char) : Bool :=
  match hay with
  | [] => charsPrefixOf needle []
  | _ :: t => charsPrefixOf needle hay || charsContains t needle

/-- Rust `str::contains` lifted to `String`. -/
def strContains (hay needle : String) : Bool :=
  charsContains hay.data needle.data

/-- Rust `char::is_whitespace` restricted to the ASCII whitespace that occurs
in command text (space, tab, LF, CR). -/
def isWs (c : Char) : Bool :=
  c = ' ' || c = '\t' || c = '\n' || c = '\r'

/-- Rust `str::split_whitespace`: maximal runs of non-whitespace characters,
empty runs dropped. -/
def splitWs : List Char → List (List Char)
  | [] => []
  | c :: cs =>
    if isWs c then splitWs cs
    else
      match splitWs cs with
      | [] => [[c]]
      | t :: ts =>
        match cs with
        | [] => [[c]]
        | d :: _ => if isWs d then [c] :: t :: ts else (c :: t) :: ts

/-- `cmd.split_whitespace().next()`: the first whitespace-delimited token. -/
def firstToken (s : String) : Option (List Char) :=
  (splitWs s.data).head?

/-- `first.rsplit('/').next()`: the part of the token after its last `/`. -/
def afterLastSlash (t : List Char) : List Char :=
  (t.reverse.takeWhile (fun c => ¬ c = '/')).reverse

/-- `commands.join(" ")`. -/
def joinSpace (commands : List String) : String :=
  String.intercalate " " commands

/-- Rust `str::trim` on the character level (both ends, whitespace). -/
def trimChars (s : List Char) : List Char :=
  ((s.dropWhile isWs).reverse.dropWhile isWs).reverse

/-- Rust `str::trim` lifted to `String`. -/
def strTrim (s : String) : String :=
  String.mk (trimChars s.data)

/-! ### `src/safety.rs` — risk classification -/

/-- `RiskLevel` from `src/types.rs`. -/
inductive RiskLevel
  | Safe
  | Review
  | Dangerous
  | Blocked
  deriving DecidableEq, Repr

/-- `SafetyConfig` from `src/config.rs` (the fields used by the core). -/
structure SafetyConfig where
  safe_commands : List String
  dangerous_patterns : List String
  max_output_lines : Nat
  deriving DecidableEq, Repr

/-- The hard-coded destructive program names of `assess_risk`. -/
def dangerousCmds : List String :=
  ["rm", "dd", "mkfs", "fdisk", "parted", "shred"]

/-- `assess_risk` from `src/safety.rs`: dangerous-pattern substring check on
the space-joined command text first, then the destructive-leading-token check,
then the safe allowlist on slash-stripped leading tokens, else `Review`. -/
def assess_risk (commands : List String) (config : SafetyConfig) : RiskLevel :=
  let full_command := joinSpace commands
  if config.dangerous_patterns.any (fun p => strContains full_command p) then
    RiskLevel.Blocked
  else if dangerousCmds.any
      (fun cmd => commands.any (fun c => firstToken c = some cmd.data)) then
    RiskLevel.Dangerous
  else if commands.all (fun cmd =>
      let first := (firstToken cmd).getD []
      let base := afterLastSlash first
      config.safe_commands.any (fun s => s.data = base)) then
    RiskLevel.Safe
  else
    RiskLevel.Review

/-- `Config::default().safety` from `src/config.rs`. -/
def defaultSafetyConfig : SafetyConfig where
  safe_commands :=
    ["ls", "cat", "head", "tail", "wc", "grep", "find", "du", "df", "ps",
     "echo", "date", "pwd", "whoami", "which", "file", "stat", "uname",
     "hostname", "uptime", "free", "id", "env", "printenv"]
  dangerous_patterns :=
    ["rm -rf /", "rm -rf /*", "dd if=", "mkfs", "> /dev/sd",
     "chmod -R 777 /", "curl | sh", "wget | sh", ":(){ :|:& };:"]
  max_output_lines := 100

/-- C1: if the single-space-joined command text contains any configured
dangerous pattern, `assess_risk` returns `Blocked`, for every command list and
every safety configuration — in particular regardless of the safe allowlist,
since the pattern rule is checked before every other rule. -/
theorem assess_risk_blocked_on_pattern (commands : List String)
    (config : SafetyConfig)
    (h : config.dangerous_patterns.any
      (fun p => strContains (joinSpace commands) p) = true) :
    assess_risk commands config = RiskLevel.Blocked := by
  unfold assess_risk
  simp only [h, if_true]

/-- C1 witness: the default configuration blocks `["rm -rf /"]` even though a
safe allowlist could contain its leading token. -/
theorem assess_risk_blocked_on_pattern_witness :
    (defaultSafetyConfig.dangerous_patterns.any
      (fun p => strContains (joinSpace ["rm -rf /"]) p) = true)
    ∧ assess_risk ["rm -rf /"] defaultSafetyConfig = RiskLevel.Blocked :=
  ⟨by decide, assess_risk_blocked_on_pattern ["rm -rf /"] defaultSafetyConfig
      (by decide)⟩

/-- C8: the four documented classifications under the default configuration. -/
theorem assess_risk_default_examples :
    assess_risk ["rm -rf /"] defaultSafetyConfig = RiskLevel.Blocked
    ∧ assess_risk ["ls -la", "wc -l file.txt"] defaultSafetyConfig
        = RiskLevel.Safe
    ∧ assess_risk ["rm old.log"] defaultSafetyConfig = RiskLevel.Dangerous
    ∧ assess_risk ["curl https://example.com | tee out.txt"]
        defaultSafetyConfig = RiskLevel.Review := by
  refine ⟨?_, ?_, ?_, ?_⟩ <;> decide

/-! ### `src/retrieval.rs` — cosine similarity and top-k retrieval

`f32` arithmetic is modelled exactly over a linear ordered field, with the
square root as an explicit function parameter: the analytic claims instantiate
it with `Real.sqrt` over `ℝ`, the retrieval claims (which never depend on the
value of a square root) with an arbitrary function over `ℚ`. -/

/-- `cosine_similarity` from `src/retrieval.rs`: `0` on a length mismatch or
an empty first vector, `0` when either norm is zero, else the normalized dot
product. -/
def cosine_similarity {K : Type} [LinearOrderedField K] (sqrt : K → K)
    (a b : List K) : K :=
  if a.length ≠ b.length ∨ a = [] then 0
  else
    let dot := ((a.zip b).map fun p => p.1 * p.2).sum
    let norm_a := sqrt ((a.map fun x => x * x).sum)
    let norm_b := sqrt ((b.map fun x => x * x).sum)
    if norm_a = 0 ∨ norm_b = 0 then 0 else dot / (norm_a * norm_b)

/-- `Tool` from `src/types.rs`, the embedding held as exact rationals. -/
structure Tool where
  name : String
  path : String
  description : String
  synopsis : String
  examples : String
  flags : String
  source : String
  embedding : List ℚ
  deriving DecidableEq, Repr

/-- Stable insertion of a scored tool into a descending list: the new element
goes before the first strictly smaller score, after all equal ones. -/
def insertDesc (x : ℚ × Tool) : List (ℚ × Tool) → List (ℚ × Tool)
  | [] => [x]
  | y :: ys => if y.1 < x.1 then x :: y :: ys else y :: insertDesc x ys

/-- Stable descending sort by score: the extensional behaviour of
`scored.sort_by(|a, b| b.0.partial_cmp(&a.0)...)` in `src/retrieval.rs`
(Rust's `sort_by` is a stable sort). -/
def sortDesc : List (ℚ × Tool) → List (ℚ × Tool)
  | [] => []
  | x :: xs => insertDesc x (sortDesc xs)

/-- `retrieve_relevant_tools` from `src/retrieval.rs`, its effectful inputs
(the embedded query from `client.embed`, the catalog from `load_all_tools`)
passed in as values: score every stored tool, sort descending, take `top_k`. -/
def retrieve_relevant_tools (sqrt : ℚ → ℚ) (query_embedding : List ℚ)
    (all_tools : List Tool) (top_k : Nat) : List Tool :=
  let scored := all_tools.map
    (fun tool => (cosine_similarity sqrt query_embedding tool.embedding, tool))
  ((sortDesc scored).take top_k).map (fun p => p.2)

theorem insertDesc_length (x : ℚ × Tool) (l : List (ℚ × Tool)) :
    (insertDesc x l).length = l.length + 1 := by
  induction l with
  | nil => rfl
  | cons y ys ih =>
    simp only [insertDesc]
    split
    · simp
    · simp [ih]

theorem sortDesc_length (l : List (ℚ × Tool)) :
    (sortDesc l).length = l.length := by
  induction l with
  | nil => rfl
  | cons x xs ih => simp [sortDesc, insertDesc_length, ih]

theorem insertDesc_perm (x : ℚ × Tool) (l : List (ℚ × Tool)) :
    List.Perm (insertDesc x l) (x :: l) := by
  induction l with
  | nil => exact List.Perm.refl _
  | cons y ys ih =>
    simp only [insertDesc]
    split
    · exact List.Perm.refl _
    · exact (ih.cons y).trans (List.Perm.swap x y ys)

theorem sortDesc_perm (l : List (ℚ × Tool)) : List.Perm (sortDesc l) l := by
  induction l with
  | nil => exact List.Perm.refl _
  | cons x xs ih => exact (insertDesc_perm x (sortDesc xs)).trans (ih.cons x)

/-- The number of tools retrieval returns: exactly `min top_k catalogSize`. -/
theorem retrieve_length (sqrt : ℚ → ℚ) (q : List ℚ) (tools : List Tool)
    (k : Nat) :
    (retrieve_relevant_tools sqrt q tools k).length = min k tools.length := by
  simp [retrieve_relevant_tools, sortDesc_length]

/-- `PlanError`: the failure taxonomy of the plan-generation pipeline. -/
inductive PlanError
  | NoToolsIndexed
  | GenerationFailed
  | MalformedResponse
  deriving DecidableEq, Repr

/-- `TOP_K_TOOLS` from `src/planner.rs`. -/
def TOP_K_TOOLS : Nat := 8

/-- The retrieval gate of `generate_plan` in `src/planner.rs`: retrieve with
`TOP_K_TOOLS`, fail with `NoToolsIndexed` when the result is empty. -/
def generate_plan_tools (sqrt : ℚ → ℚ) (query_embedding : List ℚ)
    (all_tools : List Tool) : Except PlanError (List Tool) :=
  let tools :=
    retrieve_relevant_tools sqrt query_embedding all_tools TOP_K_TOOLS
  if tools.isEmpty then Except.error PlanError.NoToolsIndexed
  else Except.ok tools

/-- C4: retrieval returns `min top_k catalogSize` tools — never more than
`top_k`, and fewer only when the catalog holds fewer records — and the plan
pipeline fails with `NoToolsIndexed` exactly when the catalog is empty. -/
theorem retrieve_topk_bound_and_no_tools_gate :
    (∀ (sqrt : ℚ → ℚ) (q : List ℚ) (tools : List Tool) (k : Nat),
      (retrieve_relevant_tools sqrt q tools k).length = min k tools.length)
    ∧ (∀ (sqrt : ℚ → ℚ) (q : List ℚ) (tools : List Tool),
      generate_plan_tools sqrt q tools = Except.error PlanError.NoToolsIndexed
        ↔ tools = []) := by
  refine ⟨retrieve_length, ?_⟩
  intro sqrt q tools
  have key : (retrieve_relevant_tools sqrt q tools TOP_K_TOOLS).isEmpty = true
      ↔ tools = [] := by
    rw [List.isEmpty_iff, ← List.length_eq_zero, retrieve_length,
      ← List.length_eq_zero (l := tools)]
    have h8 : TOP_K_TOOLS = 8 := rfl
    rw [h8]
    omega
  unfold generate_plan_tools
  by_cases h : (retrieve_relevant_tools sqrt q tools TOP_K_TOOLS).isEmpty
  · simp only [h, if_true]
    simp [key.mp h]
  · simp only [h, Bool.false_eq_true, if_false]
    constructor
    · intro hc
      exact absurd hc (by simp)
    · intro hc
      exact absurd (key.mpr hc) (by simp [h])

/-- A one-entry catalog used to instantiate the retrieval bound. -/
def unitCatalog : List Tool :=
  [⟨"t", "/bin/t", "", "", "", "", "inferred", [1]⟩]

/-- C4 witness: on the empty catalog the gate fails with `NoToolsIndexed`,
and retrieval on a one-tool catalog with `top_k = 3` returns one tool. -/
theorem retrieve_topk_bound_and_no_tools_gate_witness :
    (retrieve_relevant_tools (fun _ => 0) [1] unitCatalog 3).length
        = min 3 unitCatalog.length
    ∧ (generate_plan_tools (fun _ => 0) [1] []
        = Except.error PlanError.NoToolsIndexed ↔ ([] : List Tool) = []) :=
  ⟨retrieve_topk_bound_and_no_tools_gate.1 (fun _ => 0) [1] unitCatalog 3,
   retrieve_topk_bound_and_no_tools_gate.2 (fun _ => 0) [1] []⟩

/-- A tool record whose embedding is empty. -/
def emptyEmbTool : Tool :=
  ⟨"mystery", "/bin/mystery", "", "", "", "", "inferred", []⟩

/-- C3 counterexample: a stored tool whose embedding is empty IS returned by
`retrieve_relevant_tools` — with a one-record catalog and `top_k = 1`, the
empty-embedding record is the entire result. -/
theorem retrieve_returns_empty_embedding_tool :
    emptyEmbTool.embedding = []
    ∧ retrieve_relevant_tools (fun _ => 0) [1] [emptyEmbTool] 1
        = [emptyEmbTool] := by
  constructor
  · rfl
  · decide

/-- C3 amended: empty-embedding tools are not filtered out of retrieval; they
merely score `0` (for every square-root model and every query embedding), and
every stored tool — whatever its embedding — is part of the result whenever
the catalog holds at most `top_k` records. -/
theorem retrieve_scores_empty_embedding_zero (sqrt : ℚ → ℚ) (q : List ℚ)
    (tools : List Tool) (k : Nat) (t : Tool) (ht : t ∈ tools)
    (hk : tools.length ≤ k) :
    cosine_similarity sqrt q ([] : List ℚ) = 0
    ∧ t ∈ retrieve_relevant_tools sqrt q tools k := by
  constructor
  · unfold cosine_similarity
    rcases List.eq_nil_or_concat q with hq | _
    · simp [hq]
    · rw [if_pos]
      left
      simp
      intro hq0
      simp_all
  · simp only [retrieve_relevant_tools]
    have hmem : (cosine_similarity sqrt q t.embedding, t) ∈
        tools.map (fun tool =>
          (cosine_similarity sqrt q tool.embedding, tool)) :=
      List.mem_map_of_mem _ ht
    have hperm := sortDesc_perm (tools.map (fun tool =>
      (cosine_similarity sqrt q tool.embedding, tool)))
    have hlen : (sortDesc (tools.map (fun tool =>
        (cosine_similarity sqrt q tool.embedding, tool)))).length ≤ k := by
      rw [sortDesc_length, List.length_map]
      exact hk
    rw [List.take_of_length_le hlen]
    exact List.mem_map_of_mem (fun p => p.2) (hperm.mem_iff.mpr hmem)

/-- C3 amended witness: with the one-record catalog holding the
empty-embedding tool and `top_k = 1`, the tool scores `0` and is returned. -/
theorem retrieve_scores_empty_embedding_zero_witness :
    cosine_similarity (fun _ => 0) [(1 : ℚ)] ([] : List ℚ) = 0
    ∧ emptyEmbTool ∈ retrieve_relevant_tools (fun _ => 0) [1] [emptyEmbTool] 1 :=
  retrieve_scores_empty_embedding_zero (fun _ => 0) [1] [emptyEmbTool] 1
    emptyEmbTool (by decide) (by decide)

/-! ### Analytic facts about `cosine_similarity` (over `ℝ`, `Real.sqrt`) -/

theorem zip_mul_sum_comm {K : Type} [LinearOrderedField K] :
    ∀ (a b : List K),
      ((a.zip b).map fun p => p.1 * p.2).sum
        = ((b.zip a).map fun p => p.1 * p.2).sum
  | [], _ => by simp
  | _ :: _, [] => by simp
  | x :: xs, y :: ys => by
    simp only [List.zip_cons_cons, List.map_cons, List.sum_cons]
    rw [mul_comm, zip_mul_sum_comm xs ys]

theorem cosine_similarity_comm {K : Type} [LinearOrderedField K]
    (sqrt : K → K) (a b : List K) :
    cosine_similarity sqrt a b = cosine_similarity sqrt b a := by
  unfold cosine_similarity
  by_cases hlen : a.length = b.length
  · by_cases ha : a = []
    · have hb : b = [] := by
        subst ha
        exact List.length_eq_zero.mp hlen.symm
      subst ha hb
      simp
    · have hb : b ≠ [] := by
        intro hc
        subst hc
        exact ha (List.length_eq_zero.mp hlen)
      rw [if_neg (by push_neg; exact ⟨hlen, ha⟩)]
      conv_rhs => rw [if_neg (by push_neg; exact ⟨hlen.symm, hb⟩ :
        ¬(b.length ≠ a.length ∨ b = []))]
      dsimp only
      by_cases hz : sqrt ((a.map fun x => x * x).sum) = 0
        ∨ sqrt ((b.map fun x => x * x).sum) = 0
      · rw [if_pos hz, if_pos hz.symm]
      · rw [if_neg hz, if_neg (fun h => hz h.symm)]
        rw [zip_mul_sum_comm a b,
          mul_comm (sqrt ((a.map fun x => x * x).sum))
            (sqrt ((b.map fun x => x * x).sum))]
  · rw [if_pos (Or.inl hlen), if_pos (Or.inl (fun h => hlen h.symm))]

theorem zip_self_mul_map {K : Type} [LinearOrderedField K] (v : List K) :
    ((v.zip v).map fun p => p.1 * p.2) = v.map fun x => x * x := by
  induction v with
  | nil => rfl
  | cons x xs ih => simp [ih]

/-- C9: cosine similarity is symmetric in its two vector arguments, and the
similarity of a nonempty vector of nonzero norm with itself is exactly `1`
(so in particular within any floating-point tolerance of `1.0`): the `f32`
computation is modelled as exact real arithmetic with `Real.sqrt`. -/
theorem cosine_similarity_symm_and_self :
    (∀ a b : List ℝ,
      cosine_similarity Real.sqrt a b = cosine_similarity Real.sqrt b a)
    ∧ (∀ v : List ℝ, v ≠ [] →
      Real.sqrt ((v.map fun x => x * x).sum) ≠ 0 →
      cosine_similarity Real.sqrt v v = 1) := by
  refine ⟨cosine_similarity_comm Real.sqrt, ?_⟩
  intro v hv hnorm
  have hS : (0 : ℝ) ≤ (v.map fun x => x * x).sum := by
    apply List.sum_nonneg
    intro x hx
    rcases List.mem_map.mp hx with ⟨y, _, rfl⟩
    exact mul_self_nonneg y
  have hS0 : (v.map fun x => x * x).sum ≠ 0 := by
    intro hc
    rw [hc, Real.sqrt_zero] at hnorm
    exact hnorm rfl
  unfold cosine_similarity
  rw [if_neg (by simp [hv])]
  simp only [zip_self_mul_map]
  rw [if_neg (by simp [hnorm])]
  rw [Real.mul_self_sqrt hS]
  exact div_self hS0

/-- C9 witness: the vector `[1]` has norm `1`, its self-similarity is `1`, and
symmetry holds at the concrete pair `([1, 2], [3])`. -/
theorem cosine_similarity_symm_and_self_witness :
    cosine_similarity Real.sqrt [(1 : ℝ)] [(1 : ℝ)] = 1
    ∧ cosine_similarity Real.sqrt [(1 : ℝ), 2] [(3 : ℝ)]
        = cosine_similarity Real.sqrt [(3 : ℝ)] [(1 : ℝ), 2] :=
  ⟨cosine_similarity_symm_and_self.2 [1] (by simp)
      (by norm_num [Real.sqrt_one]),
   cosine_similarity_symm_and_self.1 [1, 2] [3]⟩

/-! ### `src/executor.rs` — output truncation of `execute_commands`

The subprocess part of `execute_commands` is effectful; the pure rendering
step that turns the accumulated `output_lines` into the displayed string is
embedded here verbatim. -/

/-- The marker line inserted on truncation. -/
def truncMarker (n : Nat) : String :=
  "... [" ++ toString n ++ " lines truncated] ..."

/-- The truncated line vector of `execute_commands`: the first
`max_lines / 2` lines, one marker claiming `len - max_lines` lines truncated,
then the lines from index `len - max_lines / 2` on. -/
def truncated_lines (output_lines : List String) (max_lines : Nat) :
    List String :=
  output_lines.take (max_lines / 2)
    ++ [truncMarker (output_lines.length - max_lines)]
    ++ output_lines.drop (output_lines.length - max_lines / 2)

/-- The rendered output of `execute_commands`: truncate when the line count
exceeds `max_lines`, then join with newlines. -/
def render_output (output_lines : List String) (max_lines : Nat) : String :=
  if output_lines.length > max_lines then
    String.intercalate "\n" (truncated_lines output_lines max_lines)
  else
    String.intercalate "\n" output_lines

/-- C7 counterexample: with `max_output_lines = 1` and three produced lines,
every original line is omitted (three lines), yet the marker states that two
lines were truncated — the marker does not state how many lines were
omitted. -/
theorem render_output_marker_miscount :
    (["a", "b", "c"] : List String).length > 1
    ∧ truncated_lines ["a", "b", "c"] 1 = [truncMarker 2]
    ∧ "a" ∉ truncated_lines ["a", "b", "c"] 1
    ∧ "b" ∉ truncated_lines ["a", "b", "c"] 1
    ∧ "c" ∉ truncated_lines ["a", "b", "c"] 1
    ∧ truncMarker 2 ≠ truncMarker 3 := by
  refine ⟨?_, ?_, ?_, ?_, ?_, ?_⟩ <;> decide

/-- C7 amended: when the produced line count exceeds `max_lines`, the
rendering keeps the first `⌊max_lines / 2⌋` and the last `⌊max_lines / 2⌋`
lines verbatim in order with exactly one marker line between them; the marker
states `len - max_lines`, which equals the number of omitted lines exactly
when `max_lines` is even (as in the spec example `max = 10`, `24` lines:
first 5 and last 5 kept, marker states 14). -/
theorem render_output_truncation (lines : List String) (max_lines : Nat)
    (h : lines.length > max_lines) :
    render_output lines max_lines
      = String.intercalate "\n" (truncated_lines lines max_lines)
    ∧ (truncated_lines lines max_lines).length
        = max_lines / 2 + 1 + max_lines / 2
    ∧ truncated_lines lines max_lines
        = lines.take (max_lines / 2)
          ++ [truncMarker (lines.length - max_lines)]
          ++ lines.drop (lines.length - max_lines / 2)
    ∧ (lines.take (max_lines / 2)).length = max_lines / 2
    ∧ (lines.drop (lines.length - max_lines / 2)).length = max_lines / 2
    ∧ (max_lines % 2 = 0 →
        lines.length - (max_lines / 2 + max_lines / 2)
          = lines.length - max_lines) := by
  have hhalf : max_lines / 2 ≤ lines.length := by omega
  refine ⟨?_, ?_, rfl, ?_, ?_, ?_⟩
  · unfold render_output
    rw [if_pos h]
  · simp [truncated_lines]
    omega
  · simp
    omega
  · simp
    omega
  · intro he
    omega

/-- The 24 distinct produced lines of the spec's truncation example. -/
def exampleLines : List String :=
  (List.range 24).map (fun n => toString n)

/-- C7 amended witness: with `max_output_lines = 10` and 24 produced lines,
the rendering keeps the first 5 and last 5 lines with one marker between
them. -/
theorem render_output_truncation_witness :
    (truncated_lines exampleLines 10).length = 10 / 2 + 1 + 10 / 2
    ∧ truncated_lines exampleLines 10
        = exampleLines.take (10 / 2)
          ++ [truncMarker (exampleLines.length - 10)]
          ++ exampleLines.drop (exampleLines.length - 10 / 2)
    ∧ exampleLines.length - 10 = 14 :=
  ⟨(render_output_truncation exampleLines 10 (by decide)).2.1,
   (render_output_truncation exampleLines 10 (by decide)).2.2.1,
   by decide⟩

/-! ### `src/planner.rs` — parsing the model response into a plan

`serde_json` is an external collaborator: a JSON value is modelled by the
`Json` inductive and the text-to-JSON parser is passed in as a function
`List Char → Option Json` (`none` standing for a serde parse error, surfaced
by the spec's taxonomy as `MalformedResponse`). The brace-scanning recovery
heuristic and the field defaulting are embedded from the source. -/

/-- `Plan` from `src/types.rs`. The Rust field `explanation` is rendered as
`explanationText`. -/
structure Plan where
  commands : List String
  explanationText : String
  warnings : List String
  needs_confirmation : Bool
  deriving DecidableEq, Repr

/-- A JSON value, as produced by `serde_json`. -/
inductive Json where
  | null
  | bool (b : Bool)
  | num (q : ℚ)
  | str (s : String)
  | arr (elems : List Json)
  | obj (fields : List (String × Json))

/-- `serde_json::Value` string indexing (`parsed["key"]`): the value under
the key of an object, `Null` for a missing key or a non-object. -/
def Json.getField : Json → String → Json
  | .obj fields, key =>
    ((fields.find? (fun f => f.1 = key)).map (fun f => f.2)).getD Json.null
  | _, _ => Json.null

/-- `Value::as_str`. -/
def Json.asStr : Json → Option String
  | .str s => some s
  | _ => none

/-- `Value::as_bool`. -/
def Json.asBool : Json → Option Bool
  | .bool b => some b
  | _ => none

/-- `Value::as_array`. -/
def Json.asArr : Json → Option (List Json)
  | .arr elems => some elems
  | _ => none

/-- The `Plan { ... }` construction of `parse_plan` in `src/planner.rs`:
each field read from the parsed value with its documented default. -/
def plan_of_json (j : Json) : Plan where
  commands :=
    ((Json.asArr (Json.getField j "commands")).map
      (fun elems => elems.filterMap Json.asStr)).getD []
  explanationText :=
    (Json.asStr (Json.getField j "explanation")).getD "Execute the command(s)"
  warnings :=
    ((Json.asArr (Json.getField j "warnings")).map
      (fun elems => elems.filterMap Json.asStr)).getD []
  needs_confirmation :=
    (Json.asBool (Json.getField j "needs_confirmation")).getD true

/-- `str::find(char)` on the character level: index of the first occurrence. -/
def firstIdx (c : Char) : List Char → Option Nat
  | [] => none
  | x :: xs => if x = c then some 0 else (firstIdx c xs).map (fun i => i + 1)

/-- `str::rfind(char)` on the character level: index of the last occurrence. -/
def lastIdx (c : Char) (l : List Char) : Option Nat :=
  (firstIdx c l.reverse).map (fun i => l.length - 1 - i)

/-- `&response[s..=e]`: the inclusive slice. -/
def sliceIncl (l : List Char) (s e : Nat) : List Char :=
  (l.drop s).take (e - s + 1)

/-- The brace-scanning heuristic of `parse_plan`: trim, then take the span
from the first brace-open to the last brace-close when the latter comes
later; otherwise keep the whole trimmed response. -/
def extract_json (response : List Char) : List Char :=
  let t := trimChars response
  match firstIdx (Char.ofNat 123) t, lastIdx (Char.ofNat 125) t with
  | some s, some e => if s < e then sliceIncl t s e else t
  | _, _ => t

/-- `parse_plan` from `src/planner.rs`, over an explicit serde model `p`:
parse the extracted span, surface `MalformedResponse` on parse failure, else
build the plan with field defaults. -/
def parse_plan (p : List Char → Option Json) (response : List Char) :
    Except PlanError Plan :=
  match p (extract_json response) with
  | none => Except.error PlanError.MalformedResponse
  | some j => Except.ok (plan_of_json j)

theorem extract_json_pair (r : List Char) (s e : Nat)
    (h1 : firstIdx (Char.ofNat 123) (trimChars r) = some s)
    (h2 : lastIdx (Char.ofNat 125) (trimChars r) = some e)
    (h3 : s < e) :
    extract_json r = sliceIncl (trimChars r) s e := by
  unfold extract_json
  dsimp only
  rw [h1, h2]
  dsimp only
  rw [if_pos h3]

theorem extract_json_no_pair (r : List Char)
    (hno : ∀ s e, firstIdx (Char.ofNat 123) (trimChars r) = some s →
      lastIdx (Char.ofNat 125) (trimChars r) = some e → ¬ s < e) :
    extract_json r = trimChars r := by
  unfold extract_json
  dsimp only
  cases hf : firstIdx (Char.ofNat 123) (trimChars r) with
  | none => rfl
  | some s =>
    cases hl : lastIdx (Char.ofNat 125) (trimChars r) with
    | none => rfl
    | some e =>
      dsimp only
      rw [if_neg (hno s e hf hl)]

/-- C6: plan parsing takes the inclusive span from the first brace-open to
the last brace-close of the trimmed response and parses that; with no such
brace pair it parses the trimmed response itself; a parse failure surfaces
`MalformedResponse`; and a parsed object missing a field defaults it to the
empty command list, the explanation "Execute the command(s)", no warnings,
and confirmation `true`. -/
theorem parse_plan_spec :
    (∀ (p : List Char → Option Json) (r : List Char) (s e : Nat),
      firstIdx (Char.ofNat 123) (trimChars r) = some s →
      lastIdx (Char.ofNat 125) (trimChars r) = some e →
      s < e →
      parse_plan p r
        = match p (sliceIncl (trimChars r) s e) with
          | none => Except.error PlanError.MalformedResponse
          | some j => Except.ok (plan_of_json j))
    ∧ (∀ (p : List Char → Option Json) (r : List Char),
      (∀ s e, firstIdx (Char.ofNat 123) (trimChars r) = some s →
        lastIdx (Char.ofNat 125) (trimChars r) = some e → ¬ s < e) →
      parse_plan p r
        = match p (trimChars r) with
          | none => Except.error PlanError.MalformedResponse
          | some j => Except.ok (plan_of_json j))
    ∧ (∀ (p : List Char → Option Json) (r : List Char),
      p (extract_json r) = none →
      parse_plan p r = Except.error PlanError.MalformedResponse)
    ∧ (∀ fields : List (String × Json),
      fields.find? (fun f => f.1 = "commands") = none →
      (plan_of_json (Json.obj fields)).commands = [])
    ∧ (∀ fields : List (String × Json),
      fields.find? (fun f => f.1 = "explanation") = none →
      (plan_of_json (Json.obj fields)).explanationText
        = "Execute the command(s)")
    ∧ (∀ fields : List (String × Json),
      fields.find? (fun f => f.1 = "warnings") = none →
      (plan_of_json (Json.obj fields)).warnings = [])
    ∧ (∀ fields : List (String × Json),
      fields.find? (fun f => f.1 = "needs_confirmation") = none →
      (plan_of_json (Json.obj fields)).needs_confirmation = true) := by
  refine ⟨?_, ?_, ?_, ?_, ?_, ?_, ?_⟩
  · intro p r s e h1 h2 h3
    unfold parse_plan
    rw [extract_json_pair r s e h1 h2 h3]
  · intro p r hno
    unfold parse_plan
    rw [extract_json_no_pair r hno]
  · intro p r h
    unfold parse_plan
    rw [h]
  · intro fields h
    simp [plan_of_json, Json.getField, h, Json.asArr]
  · intro fields h
    simp [plan_of_json, Json.getField, h, Json.asStr]
  · intro fields h
    simp [plan_of_json, Json.getField, h, Json.asArr]
  · intro fields h
    simp [plan_of_json, Json.getField, h, Json.asBool]

/-- C6 witness: a parser that always fails makes `parse_plan` surface
`MalformedResponse`, and the empty parsed object takes all four defaults. -/
theorem parse_plan_spec_witness :
    parse_plan (fun _ => none) ("x, then JSON".data)
      = Except.error PlanError.MalformedResponse
    ∧ (plan_of_json (Json.obj [])).commands = []
    ∧ (plan_of_json (Json.obj [])).explanationText = "Execute the command(s)"
    ∧ (plan_of_json (Json.obj [])).warnings = []
    ∧ (plan_of_json (Json.obj [])).needs_confirmation = true :=
  ⟨parse_plan_spec.2.2.1 (fun _ => none) ("x, then JSON".data) rfl,
   parse_plan_spec.2.2.2.1 [] rfl,
   parse_plan_spec.2.2.2.2.1 [] rfl,
   parse_plan_spec.2.2.2.2.2.1 [] rfl,
   parse_plan_spec.2.2.2.2.2.2 [] rfl⟩

/-! ### `src/commands.rs` — the interactive loop of `cmd_query`

Effectful collaborators are explicit: `runner` stands for
`execute_commands` (aggregate success flag and rendered output), the
editor's result is carried inside the `edit` action (`none` for a failed
write/spawn/read in `edit_command`), and the terminal reads of
`prompt_action` are a list of actions. `prompt_action` itself maps empty
input to run, `e` to edit, `?` to explain, and `q`, any other input, or an
unreadable line to quit/cancel, so `UserAction` is exactly its codomain. History
rows live in a list in insertion order (timestamps are non-decreasing, so
`ORDER BY timestamp DESC LIMIT 1` reads the latest insertion). -/

/-- `HistoryEntry` from `src/types.rs`. -/
structure HistoryEntry where
  query : String
  commands : List String
  executed : Bool
  succeeded : Bool
  deriving DecidableEq, Repr

/-- `save_history` from `src/db.rs`: a single `INSERT INTO history`, i.e. the
new row appended after all existing rows. -/
def save_history (history : List HistoryEntry) (query : String)
    (commands : List String) (executed succeeded : Bool) :
    List HistoryEntry :=
  history ++ [⟨query, commands, executed, succeeded⟩]

/-- One user response in the prompt loop of `cmd_query`. -/
inductive UserAction where
  | run
  | edit (editorResult : Option String)
  | explain
  | quit
  | unreadable
  deriving DecidableEq, Repr

/-- What one iteration of the prompt loop decides. -/
inductive StepResult where
  | toPresenting
  | terminalRun
  | terminalEdited (edited : String)
  | terminalCancelled
  deriving DecidableEq, Repr

/-- One iteration of the `loop` in `cmd_query`: run breaks to execution; an
edit is discarded when the editor fails or the trimmed text is empty, refused
(back to the prompt) when the re-assessed risk is `Blocked`, and otherwise
breaks to immediate execution of the single edited command; explain loops;
quit or an unreadable line cancels. -/
def query_step (config : SafetyConfig) (a : UserAction) : StepResult :=
  match a with
  | UserAction.run => StepResult.terminalRun
  | UserAction.edit none => StepResult.toPresenting
  | UserAction.edit (some text) =>
    let edited := strTrim text
    if edited = "" then StepResult.toPresenting
    else if assess_risk [edited] config = RiskLevel.Blocked then
      StepResult.toPresenting
    else StepResult.terminalEdited edited
  | UserAction.explain => StepResult.toPresenting
  | UserAction.quit => StepResult.terminalCancelled
  | UserAction.unreadable => StepResult.terminalCancelled

/-- How a query run ends. -/
inductive QueryOutcome where
  | noPlan
  | blockedRefusal
  | explainedOnly
  | yoloRan
  | ranPlan
  | ranEdited
  | cancelled
  | presenting
  deriving DecidableEq, Repr

/-- The prompt loop of `cmd_query`, consuming the user's responses in order:
terminal iterations execute and/or record history exactly as the source arms
do; exhausting the supplied responses leaves the machine presenting. -/
def run_loop (config : SafetyConfig) (query : String)
    (commands : List String) (runner : List String → Bool × String)
    (history : List HistoryEntry) :
    List UserAction → QueryOutcome × List HistoryEntry
  | [] => (QueryOutcome.presenting, history)
  | a :: rest =>
    match query_step config a with
    | StepResult.toPresenting =>
      run_loop config query commands runner history rest
    | StepResult.terminalRun =>
      (QueryOutcome.ranPlan,
       save_history history query commands true (runner commands).1)
    | StepResult.terminalEdited edited =>
      (QueryOutcome.ranEdited,
       save_history history query [edited] true (runner [edited]).1)
    | StepResult.terminalCancelled =>
      (QueryOutcome.cancelled,
       save_history history query commands false false)

/-- `cmd_query` from `src/commands.rs`, after plan generation succeeded: the
empty-plan early return, the `Blocked` refusal, explain-only mode, the yolo
auto-run of `Safe` plans, then the interactive loop. -/
def cmd_query_model (config : SafetyConfig) (query : String) (plan : Plan)
    (yolo explain_only : Bool) (runner : List String → Bool × String)
    (actions : List UserAction) (history : List HistoryEntry) :
    QueryOutcome × List HistoryEntry :=
  if plan.commands = [] then (QueryOutcome.noPlan, history)
  else
    let risk := assess_risk plan.commands config
    if risk = RiskLevel.Blocked then (QueryOutcome.blockedRefusal, history)
    else if explain_only then (QueryOutcome.explainedOnly, history)
    else if yolo ∧ risk = RiskLevel.Safe then
      (QueryOutcome.yoloRan,
       save_history history query plan.commands true
         (runner plan.commands).1)
    else run_loop config query plan.commands runner history actions

/-- C2 counterexample: choosing Edit with editor text `"echo hi"` (non-empty,
not `Blocked`) does NOT transition back to Presenting — the step is terminal
and the loop executes the edited command immediately, recording it as
executed. -/
theorem edit_executes_immediately :
    query_step defaultSafetyConfig (UserAction.edit (some "echo hi"))
      = StepResult.terminalEdited "echo hi"
    ∧ query_step defaultSafetyConfig (UserAction.edit (some "echo hi"))
      ≠ StepResult.toPresenting
    ∧ run_loop defaultSafetyConfig "list files" ["ls"] (fun _ => (true, ""))
        [] [UserAction.edit (some "echo hi")]
      = (QueryOutcome.ranEdited,
         [⟨"list files", ["echo hi"], true, true⟩]) := by
  refine ⟨?_, ?_, ?_⟩ <;> decide

/-- C2 amended: an Edit whose trimmed text is non-empty and re-assessed as
not `Blocked` executes that single edited command immediately and terminates
the query (recorded as executed) instead of re-presenting; a `Blocked` edit
is refused with a loop back to the prompt; an empty or failed edit is
discarded, looping with the plan unchanged. -/
theorem edit_transition_spec (config : SafetyConfig) (text : String) :
    (strTrim text ≠ "" →
      assess_risk [strTrim text] config ≠ RiskLevel.Blocked →
      query_step config (UserAction.edit (some text))
        = StepResult.terminalEdited (strTrim text))
    ∧ (strTrim text ≠ "" →
      assess_risk [strTrim text] config = RiskLevel.Blocked →
      query_step config (UserAction.edit (some text)) = StepResult.toPresenting)
    ∧ (strTrim text = "" →
      query_step config (UserAction.edit (some text)) = StepResult.toPresenting)
    ∧ query_step config (UserAction.edit none) = StepResult.toPresenting
    ∧ (∀ (query : String) (commands : List String)
        (runner : List String → Bool × String)
        (history : List HistoryEntry) (rest : List UserAction),
      strTrim text ≠ "" →
      assess_risk [strTrim text] config ≠ RiskLevel.Blocked →
      run_loop config query commands runner history
          (UserAction.edit (some text) :: rest)
        = (QueryOutcome.ranEdited,
           save_history history query [strTrim text] true
             (runner [strTrim text]).1)) := by
  refine ⟨?_, ?_, ?_, rfl, ?_⟩
  · intro hne hnb
    unfold query_step
    dsimp only
    rw [if_neg hne, if_neg hnb]
  · intro hne hb
    unfold query_step
    dsimp only
    rw [if_neg hne, if_pos hb]
  · intro he
    unfold query_step
    dsimp only
    rw [if_pos he]
  · intro query commands runner history rest hne hnb
    unfold run_loop
    have hstep : query_step config (UserAction.edit (some text))
        = StepResult.terminalEdited (strTrim text) := by
      unfold query_step
      dsimp only
      rw [if_neg hne, if_neg hnb]
    rw [hstep]

/-- C2 amended witness: the concrete edit `"echo hi"` under the default
configuration is executed immediately from the prompt loop. -/
theorem edit_transition_spec_witness :
    query_step defaultSafetyConfig (UserAction.edit (some " echo hi "))
      = StepResult.terminalEdited (strTrim " echo hi ")
    ∧ run_loop defaultSafetyConfig "q" ["ls"] (fun _ => (true, "")) []
        [UserAction.edit (some " echo hi ")]
      = (QueryOutcome.ranEdited,
         save_history [] "q" [strTrim " echo hi "] true
           ((fun _ => (true, "")) [strTrim " echo hi "]).1) :=
  ⟨(edit_transition_spec defaultSafetyConfig " echo hi ").1
      (by decide) (by decide),
   (edit_transition_spec defaultSafetyConfig " echo hi ").2.2.2.2
      "q" ["ls"] (fun _ => (true, "")) [] [] (by decide) (by decide)⟩

/-- C5 counterexample: a `Blocked` plan is a terminal outcome of the query
(the commands are displayed and refused, the process returns) that appends
ZERO history entries, not exactly one. -/
theorem blocked_terminal_records_nothing :
    cmd_query_model defaultSafetyConfig "wipe it"
        ⟨["rm -rf /"], "Execute the command(s)", [], true⟩
        false false (fun _ => (true, "")) [] []
      = (QueryOutcome.blockedRefusal, [])
    ∧ ([] : List HistoryEntry).length ≠ 1 := by
  refine ⟨?_, ?_⟩ <;> decide

theorem run_loop_spec (config : SafetyConfig) (query : String)
    (commands : List String) (runner : List String → Bool × String) :
    ∀ (actions : List UserAction) (history : List HistoryEntry),
      (∃ t, (run_loop config query commands runner history actions).2
          = history ++ t)
      ∧ ((run_loop config query commands runner history actions).1
            = QueryOutcome.presenting →
          (run_loop config query commands runner history actions).2 = history)
      ∧ ((run_loop config query commands runner history actions).1
            = QueryOutcome.cancelled →
          (run_loop config query commands runner history actions).2
            = save_history history query commands false false)
      ∧ ((run_loop config query commands runner history actions).1
              = QueryOutcome.ranPlan
          ∨ (run_loop config query commands runner history actions).1
              = QueryOutcome.ranEdited
          ∨ (run_loop config query commands runner history actions).1
              = QueryOutcome.cancelled →
          (run_loop config query commands runner history actions).2.length
            = history.length + 1) := by
  intro actions
  induction actions with
  | nil =>
    intro history
    refine ⟨⟨[], by simp [run_loop]⟩, fun _ => rfl, ?_, ?_⟩
    · intro h
      exact absurd h (by simp [run_loop])
    · intro h
      rcases h with h | h | h <;> exact absurd h (by simp [run_loop])
  | cons a rest ih =>
    intro history
    cases hstep : query_step config a with
    | toPresenting =>
      have := ih history
      simpa [run_loop, hstep] using this
    | terminalRun =>
      simp only [run_loop, hstep]
      refine ⟨⟨_, rfl⟩, by simp, by simp, by simp [save_history]⟩
    | terminalEdited edited =>
      simp only [run_loop, hstep]
      refine ⟨⟨_, rfl⟩, by simp, by simp, by simp [save_history]⟩
    | terminalCancelled =>
      simp only [run_loop, hstep]
      refine ⟨⟨_, rfl⟩, by simp, by simp, by simp [save_history]⟩

theorem run_loop_outcomes (config : SafetyConfig) (query : String)
    (commands : List String) (runner : List String → Bool × String) :
    ∀ (actions : List UserAction) (history : List HistoryEntry),
      (run_loop config query commands runner history actions).1
          = QueryOutcome.presenting
      ∨ (run_loop config query commands runner history actions).1
          = QueryOutcome.ranPlan
      ∨ (run_loop config query commands runner history actions).1
          = QueryOutcome.ranEdited
      ∨ (run_loop config query commands runner history actions).1
          = QueryOutcome.cancelled := by
  intro actions
  induction actions with
  | nil => intro history; left; rfl
  | cons a rest ih =>
    intro history
    cases hstep : query_step config a with
    | toPresenting => simpa [run_loop, hstep] using ih history
    | terminalRun => simp [run_loop, hstep]
    | terminalEdited edited => simp [run_loop, hstep]
    | terminalCancelled => simp [run_loop, hstep]

/-- C5 amended: prior history rows are always preserved (append-only); the
terminal outcomes that reach the prompt/confirmation stage — yolo auto-run,
Run, an executed Edit, and cancellation — append exactly one entry, with
cancellation (quit or an unreadable prompt read) recording
`executed = false, succeeded = false` on the presented commands; the
empty-plan, `Blocked`-refusal and explain-only terminals append none. -/
theorem query_history_per_outcome (config : SafetyConfig) (query : String)
    (plan : Plan) (yolo explain_only : Bool)
    (runner : List String → Bool × String) (actions : List UserAction)
    (history : List HistoryEntry) :
    (∃ t, (cmd_query_model config query plan yolo explain_only runner actions
        history).2 = history ++ t)
    ∧ ((cmd_query_model config query plan yolo explain_only runner actions
          history).1 = QueryOutcome.cancelled →
        (cmd_query_model config query plan yolo explain_only runner actions
          history).2 = save_history history query plan.commands false false)
    ∧ ((cmd_query_model config query plan yolo explain_only runner actions
            history).1 = QueryOutcome.yoloRan
        ∨ (cmd_query_model config query plan yolo explain_only runner actions
            history).1 = QueryOutcome.ranPlan
        ∨ (cmd_query_model config query plan yolo explain_only runner actions
            history).1 = QueryOutcome.ranEdited
        ∨ (cmd_query_model config query plan yolo explain_only runner actions
            history).1 = QueryOutcome.cancelled →
        (cmd_query_model config query plan yolo explain_only runner actions
          history).2.length = history.length + 1)
    ∧ ((cmd_query_model config query plan yolo explain_only runner actions
            history).1 = QueryOutcome.noPlan
        ∨ (cmd_query_model config query plan yolo explain_only runner actions
            history).1 = QueryOutcome.blockedRefusal
        ∨ (cmd_query_model config query plan yolo explain_only runner actions
            history).1 = QueryOutcome.explainedOnly
        ∨ (cmd_query_model config query plan yolo explain_only runner actions
            history).1 = QueryOutcome.presenting →
        (cmd_query_model config query plan yolo explain_only runner actions
          history).2 = history) := by
  unfold cmd_query_model
  by_cases h1 : plan.commands = []
  · rw [if_pos h1]
    refine ⟨⟨[], by simp⟩, by simp, by simp, by simp⟩
  · rw [if_neg h1]
    dsimp only
    by_cases h2 : assess_risk plan.commands config = RiskLevel.Blocked
    · rw [if_pos h2]
      refine ⟨⟨[], by simp⟩, by simp, by simp, by simp⟩
    · rw [if_neg h2]
      by_cases h3 : explain_only = true
      · rw [if_pos h3]
        refine ⟨⟨[], by simp⟩, by simp, by simp, by simp⟩
      · rw [if_neg h3]
        by_cases h4 : yolo = true ∧ assess_risk plan.commands config
            = RiskLevel.Safe
        · rw [if_pos h4]
          refine ⟨⟨_, rfl⟩, by simp, ?_, by simp⟩
          intro _
          simp [save_history]
        · rw [if_neg h4]
          have hloop := run_loop_spec config query plan.commands runner
            actions history
          have hout := run_loop_outcomes config query plan.commands runner
            actions history
          refine ⟨hloop.1, hloop.2.2.1, ?_, ?_⟩
          · intro h
            rcases h with h | h | h | h
            · rcases hout with ho | ho | ho | ho <;> rw [h] at ho <;>
                simp at ho
            · exact hloop.2.2.2 (Or.inl h)
            · exact hloop.2.2.2 (Or.inr (Or.inl h))
            · exact hloop.2.2.2 (Or.inr (Or.inr h))
          · intro h
            rcases h with h | h | h | h
            · rcases hout with ho | ho | ho | ho <;> rw [h] at ho <;>
                simp at ho
            · rcases hout with ho | ho | ho | ho <;> rw [h] at ho <;>
                simp at ho
            · rcases hout with ho | ho | ho | ho <;> rw [h] at ho <;>
                simp at ho
            · exact hloop.2.1 h

/-- C5 amended witness: quitting at the first prompt cancels and records
exactly the `executed = false, succeeded = false` entry. -/
theorem query_history_per_outcome_witness :
    (cmd_query_model defaultSafetyConfig "q" ⟨["ls"], "x", [], true⟩
        false false (fun _ => (true, "")) [UserAction.quit] []).2
      = save_history [] "q" ["ls"] false false :=
  (query_history_per_outcome defaultSafetyConfig "q" ⟨["ls"], "x", [], true⟩
      false false (fun _ => (true, "")) [UserAction.quit] []).2.1 (by decide)

/-! ### `src/db.rs` — `get_last_command`

History rows are held in insertion order (row timestamps are non-decreasing,
so `ORDER BY timestamp DESC LIMIT 1` among `executed = 1` rows reads the most
recently inserted executed entry); the stored plan JSON round-trips the
command list exactly, and `.into_iter().next()` keeps only its head. -/

/-- `get_last_command` from `src/db.rs`: the first command of the most recent
executed history entry, `none` when no executed entry exists (or when its
command list is empty). -/
def get_last_command (history : List HistoryEntry) : Option String :=
  match history.reverse.find? (fun e => e.executed) with
  | none => none
  | some e => e.commands.head?

/-- C10: `get_last_command` yields `none` when no entry is executed, and for
a history whose most recent executed entry (no executed entries after it)
holds commands `c :: cs`, it yields `some c` — every command after the first
is dropped, whatever `cs` is. -/
theorem get_last_command_spec :
    (∀ history : List HistoryEntry,
      (∀ e ∈ history, e.executed = false) → get_last_command history = none)
    ∧ (∀ (before after : List HistoryEntry) (e : HistoryEntry) (c : String)
        (cs : List String),
      e.executed = true → e.commands = c :: cs →
      (∀ x ∈ after, x.executed = false) →
      get_last_command (before ++ e :: after) = some c) := by
  constructor
  · intro history hall
    unfold get_last_command
    have hnone : history.reverse.find? (fun e => e.executed) = none := by
      rw [List.find?_eq_none]
      intro x hx
      simp [hall x (List.mem_reverse.mp hx)]
    rw [hnone]
  · intro before after e c cs hex hcmds hall
    unfold get_last_command
    have hrev : (before ++ e :: after).reverse
        = after.reverse ++ e :: before.reverse := by
      simp
    have hafter : after.reverse.find? (fun x => x.executed) = none := by
      rw [List.find?_eq_none]
      intro x hx
      simp [hall x (List.mem_reverse.mp hx)]
    rw [hrev, List.find?_append, hafter, Option.none_or,
      List.find?_cons_of_pos _ hex]
    dsimp only
    rw [hcmds]
    rfl

/-- C10 witness: with the latest executed entry holding `["a", "b"]` followed
only by a non-executed entry, the result is `some "a"` (the `"b"` dropped);
and a history with no executed entry yields `none`. -/
theorem get_last_command_spec_witness :
    get_last_command
        ([] ++ ⟨"q1", ["a", "b"], true, true⟩
          :: [⟨"q2", ["x"], false, false⟩]) = some "a"
    ∧ get_last_command [⟨"q2", ["x"], false, false⟩] = none :=
  ⟨get_last_command_spec.2 [] [⟨"q2", ["x"], false, false⟩]
      ⟨"q1", ["a", "b"], true, true⟩ "a" ["b"] rfl rfl (by decide),
   get_last_command_spec.1 [⟨"q2", ["x"], false, false⟩] (by decide)⟩
